import Mathlib

/-!
Shallow embedding of the create-stripeflare CLI (src/index.js) and proofs
checking the natural-language specification against it.

File contents are modelled as lists of characters (JS strings); the
filesystem, network and child processes are modelled as an explicit trace
of effects.  Each JS function from src/index.js is translated into a Lean
definition of the same name; `main` composes them in the source's order.
-/

namespace Stripeflare

/-- JS strings are modelled as lists of characters. -/
abbrev Str := List Char

/-- Coerce a Lean string literal into the character-list model. -/
def str (s : String) : Str := s.toList

/-- Auxiliary scanner for `splitOnChar` (accumulates the current segment
reversed, exactly like a left-to-right scan). -/
def splitOnCharAux (sep : Char) : Str → Str → List Str
  | [], acc => [acc.reverse]
  | c :: rest, acc =>
    if c = sep then acc.reverse :: splitOnCharAux sep rest []
    else splitOnCharAux sep rest (c :: acc)

/-- Model of JS `String.prototype.split` with a single-character separator:
splits at every occurrence, keeping empty segments. -/
def splitOnChar (s : Str) (sep : Char) : List Str := splitOnCharAux sep s []

/-- Whitespace characters removed by JS `String.prototype.trim`. -/
def isWS (c : Char) : Bool :=
  c == ' ' || c == '\t' || c == '\n' || c == '\r' || c == '\x0c'

/-- Model of JS `String.prototype.trim`. -/
def trimStr (s : Str) : Str :=
  ((s.dropWhile isWS).reverse.dropWhile isWS).reverse

/-- Model of JS `Array.prototype.join` with a single-character separator. -/
def joinWith (sep : Char) : List Str → Str
  | [] => []
  | [l] => l
  | l :: ls => l ++ sep :: joinWith sep ls

/-- JS truthiness of an optional string (`undefined` and the empty string
are falsy). -/
def truthy : Option Str → Bool
  | none => false
  | some v => v ≠ []

/-- Errors thrown by src/index.js, labelled by the spec's error taxonomy. -/
inductive Err where
  /-- the credentials file at the fixed home path does not exist -/
  | configMissing
  /-- a required key is missing (or empty) in the credentials file -/
  | configIncomplete (key : Str)
  /-- invalid interactive input (message distinguishes the two checks) -/
  | invalidParameters (msg : String)
  /-- the template folder does not exist -/
  | templateMissing
  /-- the project directory already exists -/
  | targetExists
  /-- a billing API call returned a non-success response; carries the
  failing step's name and the raw error body -/
  | billingAPI (step : String) (body : Str)
  /-- the npm install command failed (execSync throws) -/
  | installFailed
deriving DecidableEq

/-- Side effects of the pipeline, recorded as a trace: directory creation,
file copies and writes, external command invocations, network calls
(URL and form body) and console warnings. -/
inductive Effect where
  | mkdirE (path : Str)
  | copyFileE (src dest : Str)
  | writeFileE (path : Str) (content : Str)
  | execE (cmd : Str)
  | netCallE (url : Str) (params : List (Str × Str))
  | warnE (msg : Str)
deriving DecidableEq

/-- Parse one line of the credentials file exactly as src/index.js does:
split the whole line on every equals sign, destructure the first two
segments, keep the line only when both are non-empty, then trim both. -/
def parseEnvLine (line : Str) : Option (Str × Str) :=
  match splitOnChar line '=' with
  | key :: value :: _ =>
    if key ≠ [] ∧ value ≠ [] then some (trimStr key, trimStr value) else none
  | _ => none

/-- Parse the credentials file content: split on newlines and assign each
parsed line into the map; a later line overrides an earlier one (the
newest binding is consed in front and lookup takes the first hit). -/
def parseEnvVars (content : Str) : List (Str × Str) :=
  (splitOnChar content '\n').foldl
    (fun m line =>
      match parseEnvLine line with
      | some kv => kv :: m
      | none => m) []

/-- The keys src/index.js requires in the credentials file. -/
def requiredKeys : List Str :=
  [str "STRIPE_SECRET", str "STRIPE_PUBLISHABLE_KEY", str "GITHUB_OWNER"]

/-- Check each required key in order; throw on the first falsy value. -/
def checkRequired (m : List (Str × Str)) : List Str → Except Err (List (Str × Str))
  | [] => .ok m
  | k :: ks =>
    if truthy (m.lookup k) then checkRequired m ks
    else .error (.configIncomplete k)

/-- Model of loadEnvVars: the existence of the fixed-path credentials file
and its content are the two inputs (reading the filesystem is external). -/
def loadEnvVars (credFileExists : Bool) (content : Str) :
    Except Err (List (Str × Str)) :=
  if credFileExists then checkRequired (parseEnvVars content) requiredKeys
  else .error .configMissing

/-- Collect the leading digits of a string (values and remainder). -/
def takeDigits : Str → List Nat × Str
  | [] => ([], [])
  | c :: rest =>
    if c.isDigit then
      let p := takeDigits rest
      ((c.toNat - 48) :: p.1, p.2)
    else ([], c :: rest)

/-- Decimal value of a digit list. -/
def digitsToNat (ds : List Nat) : Nat := ds.foldl (fun a d => 10 * a + d) 0

/-- Model of JS `parseFloat` on sign + decimal notation: skip leading
whitespace, optional sign, integer digits, optional fraction; returns
`none` for NaN (no digits at all).  Exponents and the Infinity literal
are outside the inputs this pipeline cares about and are not modelled. -/
def parseFloat (s : Str) : Option ℚ :=
  let s1 := s.dropWhile isWS
  let sgn : ℤ × Str :=
    match s1 with
    | '-' :: r => (-1, r)
    | '+' :: r => (1, r)
    | r => (1, r)
  let ip := takeDigits sgn.2
  let fp :=
    match ip.2 with
    | '.' :: r => (takeDigits r).1
    | _ => []
  if ip.1 = [] ∧ fp = [] then none
  else
    let den : Nat := 10 ^ fp.length
    some (mkRat (sgn.1 * (digitsToNat ip.1 * den + digitsToNat fp)) den)

/-- The validated parameter record returned by promptForProjectDetails. -/
structure Config where
  name : Str
  domain : Str
  title : Str
  price : ℚ
deriving DecidableEq

/-- Model of promptForProjectDetails: the four raw lines of interactive
input are the inputs; validation follows the source exactly (emptiness is
checked on the raw input, trimming happens only on the returned record). -/
def promptForProjectDetails (name domain title price : Str) : Except Err Config :=
  if name = [] ∨ domain = [] ∨ title = [] ∨ price = [] then
    .error (.invalidParameters "All fields are required")
  else
    match parseFloat price with
    | none => .error (.invalidParameters "Price must be a valid positive number")
    | some priceNum =>
      if priceNum ≤ 0 then .error (.invalidParameters "Price must be a valid positive number")
      else .ok { name := trimStr name, domain := trimStr domain,
                 title := trimStr title, price := priceNum }

mutual
/-- A template/project directory tree (mutual with its list of entries, so
that recursion over it is structural and kernel-reducible). -/
inductive FTree where
  | file (name : Str) (content : Str)
  | dir (name : Str) (children : FTrees)
inductive FTrees where
  | nil
  | cons (t : FTree) (ts : FTrees)
end

mutual
/-- Effects of copyRecursive on a single entry: files are copied
byte-for-byte, directories are recreated and recursed into. -/
def copyTreeEffects (srcDir destDir : Str) : FTree → List Effect
  | .file n _ => [.copyFileE (srcDir ++ '/' :: n) (destDir ++ '/' :: n)]
  | .dir n cs =>
    .mkdirE (destDir ++ '/' :: n) :: copyTreesEffects (srcDir ++ '/' :: n) (destDir ++ '/' :: n) cs
def copyTreesEffects (srcDir destDir : Str) : FTrees → List Effect
  | .nil => []
  | .cons t ts => copyTreeEffects srcDir destDir t ++ copyTreesEffects srcDir destDir ts
end

/-- Boolean prefix test on character lists (a faithful model of the prefix
check JS string search performs at each scan position). -/
def isPre : Str → Str → Bool
  | [], _ => true
  | _ :: _, [] => false
  | a :: as, b :: bs => a == b && isPre as bs

/-- Fueled scanner for `replaceAll` (fuel makes the recursion structural,
hence computable by the kernel); adequate whenever fuel ≥ length. -/
def replaceAllF (repl pat : Str) : Nat → Str → Str
  | 0, s => s
  | n + 1, s =>
    if isPre pat s ∧ pat ≠ [] then repl ++ replaceAllF repl pat n (s.drop pat.length)
    else
      match s with
      | [] => []
      | c :: cs => c :: replaceAllF repl pat n cs

/-- Model of JS `String.prototype.replaceAll` with a non-empty literal
pattern: left-to-right, non-overlapping, the replacement text is not
rescanned.  (JS's special empty-pattern behaviour is irrelevant here:
every pattern used by the source is a non-empty placeholder token.) -/
def replaceAll (s pat repl : Str) : Str := replaceAllF repl pat s.length s

/-- The three placeholder keys of the template. -/
inductive TKey where
  | name
  | domain
  | title
deriving DecidableEq

/-- Characters of a placeholder key. -/
def keyStr : TKey → Str
  | .name => ['n', 'a', 'm', 'e']
  | .domain => ['d', 'o', 'm', 'a', 'i', 'n']
  | .title => ['t', 'i', 't', 'l', 'e']

/-- The literal placeholder token of a key, i.e. the key wrapped in double
curly braces. -/
def tok (k : TKey) : Str := '\x7b' :: '\x7b' :: (keyStr k ++ ['\x7d', '\x7d'])

/-- The replacement map of replaceTemplateVariables, in the source's fixed
object-entry order: name, then domain, then title. -/
def templateReplacements (cfg : Config) : List (Str × Str) :=
  [(tok .name, cfg.name), (tok .domain, cfg.domain), (tok .title, cfg.title)]

/-- Content transformation of replaceInFile: apply each mapping in order
as a literal global find/replace. -/
def replaceFileContent (repls : List (Str × Str)) (content : Str) : Str :=
  repls.foldl (fun c p => replaceAll c p.1 p.2) content

mutual
/-- Effects of replaceInDirectory: depth-first walk that skips directories
named .git or node_modules and rewrites every regular file in place. -/
def substTree (repls : List (Str × Str)) (dir : Str) : FTree → List Effect
  | .file n c => [.writeFileE (dir ++ '/' :: n) (replaceFileContent repls c)]
  | .dir n cs =>
    if n = str ".git" ∨ n = str "node_modules" then []
    else substTrees repls (dir ++ '/' :: n) cs
def substTrees (repls : List (Str × Str)) (dir : Str) : FTrees → List Effect
  | .nil => []
  | .cons t ts => substTree repls dir t ++ substTrees repls dir ts
end

/-- The git remote URL command: built from the GITHUB_OWNER variable of
the process environment, with the literal fallback "user" when unset. -/
def gitRemoteCmd (processEnvOwner : Option Str) (name : Str) : Str :=
  str "git remote add origin https://github.com/" ++
    processEnvOwner.getD (str "user") ++ '/' :: name

/-- Model of createProject: checks the template folder first, then refuses
an existing target, and only then copies the tree and runs git init plus
git remote add.  The inputs are the template tree (none when the folder is
missing), whether the resolved project path already exists, and the
process environment's GITHUB_OWNER.  On success the materialized tree is
returned for the later substitution pass. -/
def createProject (template : Option FTrees) (targetExists : Bool)
    (processEnvOwner : Option Str) (cfg : Config) :
    List Effect × Except Err FTrees :=
  match template with
  | none => ([], .error .templateMissing)
  | some ts =>
    if targetExists then ([], .error .targetExists)
    else
      (Effect.mkdirE cfg.name ::
        (copyTreesEffects (str "template") cfg.name ts ++
          [Effect.execE (str "git init"), Effect.execE (gitRemoteCmd processEnvOwner cfg.name)]),
       .ok ts)

/-- Model of installDependencies: runs npm install; a failing execSync
throws and aborts the run. -/
def installDependencies (installOk : Bool) : List Effect × Except Err Unit :=
  ([.execE (str "npm install")], if installOk then .ok () else .error .installFailed)

/-- A billing API response: success flag, raw text body (used for error
reporting), and the parsed fields the source reads on success. -/
structure StripeResponse where
  ok : Bool
  body : Str
  id : Str
  url : Str
  secret : Str
deriving DecidableEq

def productsUrl : Str := str "https://api.stripe.com/v1/products"
def pricesUrl : Str := str "https://api.stripe.com/v1/prices"
def paymentLinksUrl : Str := str "https://api.stripe.com/v1/payment_links"
def webhookEndpointsUrl : Str := str "https://api.stripe.com/v1/webhook_endpoints"

/-- Math.round(price * 100) of the source, i.e. the price converted to
minor units and rounded half-up (toward positive infinity): price * 100
has numerator num * 100 over the same denominator, and the floor of
q + 1/2 is the floor division of 2 * num + den by 2 * den. -/
def unitAmount (price : ℚ) : ℤ :=
  let q := mkRat (price.num * 100) price.den
  Int.fdiv (2 * q.num + q.den) (2 * q.den)

/-- Render an integer the way URLSearchParams stringifies a JS number. -/
def intToStr (n : ℤ) : Str := (toString n).toList

/-- Model of createStripePaymentLink: the strict product → price →
payment-link chain.  The three oracle responses stand for the network; a
non-success response aborts the chain with the step's name and raw body,
and later calls are not attempted. -/
def createStripePaymentLink (cfg : Config)
    (productResp priceResp linkResp : StripeResponse) :
    List Effect × Except Err Str :=
  let c1 := Effect.netCallE productsUrl
    [(str "name", cfg.title), (str "type", str "service")]
  if productResp.ok then
    let c2 := Effect.netCallE pricesUrl
      [(str "currency", str "usd"), (str "product", productResp.id),
       (str "unit_amount", intToStr (unitAmount cfg.price))]
    if priceResp.ok then
      let c3 := Effect.netCallE paymentLinksUrl
        [(str "line_items[0][price]", priceResp.id), (str "line_items[0][quantity]", str "1")]
      if linkResp.ok then ([c1, c2, c3], .ok linkResp.url)
      else ([c1, c2, c3], .error (.billingAPI "payment link" linkResp.body))
    else ([c1, c2], .error (.billingAPI "price" priceResp.body))
  else ([c1], .error (.billingAPI "product" productResp.body))

/-- Model of createStripeWebhook: one call registering the endpoint at
https://{domain}/stripe-webhook for the single event type. -/
def createStripeWebhook (cfg : Config) (resp : StripeResponse) :
    List Effect × Except Err Str :=
  ([.netCallE webhookEndpointsUrl
      [(str "url", str "https://" ++ cfg.domain ++ str "/stripe-webhook"),
       (str "enabled_events[]", str "checkout.session.completed")]],
   if resp.ok then .ok resp.secret else .error (.billingAPI "webhook" resp.body))

/-- Lowercase hex digit of a value below 16. -/
def hexChar (n : Nat) : Char := if n < 10 then Char.ofNat (48 + n) else Char.ofNat (87 + n)

/-- Two hex digits of one byte. -/
def hexByte (b : Nat) : Str := [hexChar (b / 16), hexChar (b % 16)]

/-- Hex encoding of a byte list (crypto.randomBytes(16).toString of the
source: 16 bytes become 32 hex characters). -/
def hexEncode (bs : List Nat) : Str := (bs.map hexByte).flatten

/-- Lookup with JS-object field-access semantics for keys the loader has
already guaranteed present. -/
def lookupD (m : List (Str × Str)) (k : Str) : Str := (m.lookup k).getD []

/-- The five KEY=value lines of .dev.vars, joined by newlines in the
source's fixed order. -/
def devVarsContent (secret pub link whSecret dbSecret : Str) : Str :=
  joinWith '\n'
    [str "STRIPE_SECRET=" ++ secret,
     str "STRIPE_PUBLISHABLE_KEY=" ++ pub,
     str "STRIPE_PAYMENT_LINK=" ++ link,
     str "STRIPE_WEBHOOK_SIGNING_SECRET=" ++ whSecret,
     str "DB_SECRET=" ++ dbSecret]

/-- Model of createDevVars: generates the database secret from the 16
random bytes and writes the five lines to .dev.vars at the project root
(the process cwd is the project directory after createProject). -/
def createDevVars (projectRoot : Str) (envVars : List (Str × Str))
    (paymentLink whSecret : Str) (randomBytes : List Nat) : List Effect :=
  [.writeFileE (projectRoot ++ str "/.dev.vars")
    (devVarsContent (lookupD envVars (str "STRIPE_SECRET"))
      (lookupD envVars (str "STRIPE_PUBLISHABLE_KEY"))
      paymentLink whSecret (hexEncode randomBytes))]

/-- The manual follow-up commands named by the deploy warning. -/
def manualCmd1 : Str := str "   wrangler secret bulk .dev.vars"
def manualCmd2 : Str := str "   wrangler deploy"

/-- The warning block printed when secret upload or deploy fails. -/
def deployWarnings : List Effect :=
  [.warnE (str "Warning: Deployment or secret upload failed. You may need to run these commands manually:"),
   .warnE manualCmd1, .warnE manualCmd2]

/-- Model of deployProject: both execSync calls live in one try block, so
a failing secret upload skips the deploy; either failure is downgraded to
the warning block and never escapes the function. -/
def deployProject (secretUploadOk deployOk : Bool) : List Effect :=
  if secretUploadOk then
    if deployOk then
      [.execE (str "wrangler secret bulk .dev.vars"), .execE (str "wrangler deploy")]
    else
      [.execE (str "wrangler secret bulk .dev.vars"), .execE (str "wrangler deploy")] ++
        deployWarnings
  else [.execE (str "wrangler secret bulk .dev.vars")] ++ deployWarnings

/-- Everything the outside world feeds one run of the CLI: the credentials
file, the four prompt answers, the template tree, whether the target path
exists, the process environment, the four billing API responses, the three
external command outcomes and the 16 random bytes. -/
structure MainInput where
  credFileExists : Bool
  credContent : Str
  promptName : Str
  promptDomain : Str
  promptTitle : Str
  promptPrice : Str
  template : Option FTrees
  targetExists : Bool
  processEnvOwner : Option Str
  productResp : StripeResponse
  priceResp : StripeResponse
  linkResp : StripeResponse
  webhookResp : StripeResponse
  installOk : Bool
  secretUploadOk : Bool
  deployOk : Bool
  randomBytes : List Nat

/-- Model of main: the pipeline in the source's order; any thrown error is
caught once at the top (process exit 1), success exits 0. -/
def main (i : MainInput) : List Effect × Except Err Unit :=
  match loadEnvVars i.credFileExists i.credContent with
  | .error e => ([], .error e)
  | .ok envVars =>
    match promptForProjectDetails i.promptName i.promptDomain i.promptTitle i.promptPrice with
    | .error e => ([], .error e)
    | .ok cfg =>
      match createProject i.template i.targetExists i.processEnvOwner cfg with
      | (es1, .error e) => (es1, .error e)
      | (es1, .ok ts) =>
        let es2 := substTrees (templateReplacements cfg) cfg.name ts
        match installDependencies i.installOk with
        | (es3, .error e) => (es1 ++ es2 ++ es3, .error e)
        | (es3, .ok _) =>
          match createStripePaymentLink cfg i.productResp i.priceResp i.linkResp with
          | (es4, .error e) => (es1 ++ es2 ++ es3 ++ es4, .error e)
          | (es4, .ok paymentLink) =>
            match createStripeWebhook cfg i.webhookResp with
            | (es5, .error e) => (es1 ++ es2 ++ es3 ++ es4 ++ es5, .error e)
            | (es5, .ok whSecret) =>
              let es6 := createDevVars cfg.name envVars paymentLink whSecret i.randomBytes
              let es7 := deployProject i.secretUploadOk i.deployOk
              (es1 ++ es2 ++ es3 ++ es4 ++ es5 ++ es6 ++ es7, .ok ())

/-- Process exit status of a finished run. -/
def exitCode : Except Err Unit → Nat
  | .ok _ => 0
  | .error _ => 1

/-- Does the trace contain a network call to the given URL? -/
def callsTo (u : Str) (tr : List Effect) : Bool :=
  tr.any fun e =>
    match e with
    | .netCallE u2 _ => u2 == u
    | _ => false

/-- The git commands of a trace (exec effects whose command starts with
the word git). -/
def gitCmds (tr : List Effect) : List Str :=
  tr.filterMap fun e =>
    match e with
    | .execE c => if isPre (str "git") c then some c else none
    | _ => none

/-- Lowercase-hex-digit test. -/
def isHexC (c : Char) : Bool := ('0' ≤ c && c ≤ '9') || ('a' ≤ c && c ≤ 'f')

/-- A string contains neither curly brace. -/
def braceFree (s : Str) : Bool := s.all fun c => c != '\x7b' && c != '\x7d'

/-- A structured view of file content for the substitution analysis: a
sequence of placeholder-token occurrences and literal segments. -/
inductive Block where
  | tokB (k : TKey)
  | litB (s : Str)
deriving DecidableEq

/-- Flatten a block sequence back into raw content. -/
def renderB : List Block → Str
  | [] => []
  | .tokB k :: bs => tok k ++ renderB bs
  | .litB s :: bs => s ++ renderB bs

/-- A block sequence is clean when every literal segment is brace-free (so
every token occurrence in the rendered text is one of the token blocks). -/
def cleanBlocks (bs : List Block) : Bool :=
  bs.all fun b =>
    match b with
    | .tokB _ => true
    | .litB s => braceFree s

/-- Block-level substitution of one key: its token occurrences become the
replacement value as a literal segment. -/
def applyB (k : TKey) (v : Str) : List Block → List Block :=
  List.map fun b =>
    match b with
    | .tokB k2 => if k2 = k then .litB v else .tokB k2
    | .litB s => .litB s

/-- Apply keyed replacements in a given order to raw content (each step is
the source's literal global replaceAll of that key's token). -/
def applyOrder (l : List (TKey × Str)) (s : Str) : Str :=
  l.foldl (fun c p => replaceAll c (tok p.1) p.2) s

/-- Apply keyed replacements in a given order at the block level. -/
def applyAllB (l : List (TKey × Str)) (bs : List Block) : List Block :=
  l.foldl (fun b p => applyB p.1 p.2 b) bs

/-- A successful billing API response used for concrete runs. -/
def okResp : StripeResponse :=
  { ok := true, body := [], id := str "prod_1",
    url := str "https://buy.stripe.com/x", secret := str "whsec_1" }

/-- A failing billing API response used for concrete runs. -/
def errResp : StripeResponse :=
  { ok := false, body := str "boom", id := [], url := [], secret := [] }

/-- A concrete fully-successful run input used to evaluate the model. -/
def baseInput : MainInput :=
  { credFileExists := true
    credContent := str "STRIPE_SECRET=sk_x\nSTRIPE_PUBLISHABLE_KEY=pk_x\nGITHUB_OWNER=acme"
    promptName := str "myapp"
    promptDomain := str "myapp.example.com"
    promptTitle := str "My App"
    promptPrice := str "5"
    template := some (.cons (.file (str "README.md") (str "hi")) .nil)
    targetExists := false
    processEnvOwner := some (str "acme")
    productResp := okResp
    priceResp := okResp
    linkResp := okResp
    webhookResp := okResp
    installOk := true
    secretUploadOk := true
    deployOk := true
    randomBytes := [1, 2, 3, 4, 5, 6, 7, 8, 9, 10, 11, 12, 13, 14, 15, 16] }

/-!  Theorems: helper lemmas first, then one theorem per claim (with a
counterexample and witness where the claim's status requires one). -/

/-- C1: if the target path already exists at pipeline start (the template
folder being present, as it ships with the tool), createProject fails with
the TargetExists error and produces no effect at all: no directory is
created, no file is copied, written or deleted under the existing
directory, and no command runs. -/
theorem c1_target_exists_untouched (ts : FTrees) (owner : Option Str) (cfg : Config) :
    createProject (some ts) true owner cfg = (([] : List Effect), .error Err.targetExists) := rfl

/-- C3: when the credentials file at the fixed home path does not exist,
the pipeline terminates with ConfigMissing and an empty effect trace: no
directory creation, no file write, no network call, no command. -/
theorem c3_config_missing_no_side_effects (i : MainInput)
    (h : i.credFileExists = false) :
    main i = (([] : List Effect), .error Err.configMissing) := by
  simp [main, loadEnvVars, h]

/-- C3 witness: a concrete run with the credentials file absent. -/
theorem c3_config_missing_no_side_effects_witness :
    main { baseInput with credFileExists := false } =
      (([] : List Effect), .error Err.configMissing) :=
  c3_config_missing_no_side_effects { baseInput with credFileExists := false } rfl

/-- C5 counterexample: a credentials file holding both billing keys with
non-empty values on which the loader nevertheless fails, demanding
GITHUB_OWNER — so the account-owner identifier is not optional here. -/
theorem c5_counterexample :
    loadEnvVars true (str "STRIPE_SECRET=sk_x\nSTRIPE_PUBLISHABLE_KEY=pk_x") =
        .error (.configIncomplete (str "GITHUB_OWNER")) ∧
      truthy ((parseEnvVars (str "STRIPE_SECRET=sk_x\nSTRIPE_PUBLISHABLE_KEY=pk_x")).lookup
        (str "STRIPE_SECRET")) = true ∧
      truthy ((parseEnvVars (str "STRIPE_SECRET=sk_x\nSTRIPE_PUBLISHABLE_KEY=pk_x")).lookup
        (str "STRIPE_PUBLISHABLE_KEY")) = true :=
  ⟨rfl, rfl, rfl⟩

/-- C5 (amended): the loader succeeds exactly when all three keys —
STRIPE_SECRET, STRIPE_PUBLISHABLE_KEY and also GITHUB_OWNER — are present
with non-empty values; a missing GITHUB_OWNER aborts the load. -/
theorem c5_loader_requires_github_owner (content : Str) :
    (loadEnvVars true content).isOk = true ↔
      (truthy ((parseEnvVars content).lookup (str "STRIPE_SECRET")) = true ∧
       truthy ((parseEnvVars content).lookup (str "STRIPE_PUBLISHABLE_KEY")) = true ∧
       truthy ((parseEnvVars content).lookup (str "GITHUB_OWNER")) = true) := by
  cases hS : truthy ((parseEnvVars content).lookup (str "STRIPE_SECRET")) <;>
    cases hP : truthy ((parseEnvVars content).lookup (str "STRIPE_PUBLISHABLE_KEY")) <;>
      cases hG : truthy ((parseEnvVars content).lookup (str "GITHUB_OWNER")) <;>
        simp [loadEnvVars, checkRequired, requiredKeys, hS, hP, hG, Except.isOk, Except.toBool]

/-- C6 counterexample: with a whitespace-only name answer the collector
returns successfully, yet the returned record's name is empty — emptiness
is checked before trimming, so the returned name can be empty. -/
theorem c6_counterexample :
    promptForProjectDetails (str " ") (str "d") (str "t") (str "5") =
      .ok { name := [], domain := str "d", title := str "t", price := 5 } := rfl

/-- C6 (amended): when the collector returns without error, the four raw
answers were non-empty (as typed, before trimming), the returned name,
domain and title are the trimmed answers — and may therefore be empty when
an answer was whitespace-only — and the price answer parses to a positive
number, which is returned; when it does not return a record it fails with
an InvalidParameters error. -/
theorem c6_collector_validation :
    (∀ n d t p cfg, promptForProjectDetails n d t p = .ok cfg →
      n ≠ [] ∧ d ≠ [] ∧ t ≠ [] ∧ p ≠ [] ∧
      cfg.name = trimStr n ∧ cfg.domain = trimStr d ∧ cfg.title = trimStr t ∧
      parseFloat p = some cfg.price ∧ 0 < cfg.price) ∧
    (∀ n d t p, (promptForProjectDetails n d t p).isOk = false →
      ∃ m, promptForProjectDetails n d t p = .error (.invalidParameters m)) := by
  constructor
  · intro n d t p cfg h
    unfold promptForProjectDetails at h
    split at h
    · exact absurd h (by simp)
    next hne =>
      have hn : ¬ n = [] ∧ ¬ d = [] ∧ ¬ t = [] ∧ ¬ p = [] := by
        constructor
        · exact fun hc => hne (Or.inl hc)
        constructor
        · exact fun hc => hne (Or.inr (Or.inl hc))
        constructor
        · exact fun hc => hne (Or.inr (Or.inr (Or.inl hc)))
        · exact fun hc => hne (Or.inr (Or.inr (Or.inr hc)))
      split at h
      · exact absurd h (by simp)
      next q hq =>
        split at h
        · exact absurd h (by simp)
        next hle =>
          have hcfg := Except.ok.inj h
          refine ⟨hn.1, hn.2.1, hn.2.2.1, hn.2.2.2, ?_, ?_, ?_, ?_, ?_⟩
          · rw [← hcfg]
          · rw [← hcfg]
          · rw [← hcfg]
          · rw [hq, ← hcfg]
          · rw [← hcfg]
            exact lt_of_not_le hle
  · intro n d t p h
    unfold promptForProjectDetails
    unfold promptForProjectDetails at h
    split
    · exact ⟨"All fields are required", rfl⟩
    next hne =>
      simp only [hne] at h
      split
      next hq =>
        exact ⟨"Price must be a valid positive number", rfl⟩
      next q hq =>
        rw [hq] at h
        split
        · exact ⟨"Price must be a valid positive number", rfl⟩
        next hle =>
          simp only [hle] at h
          simp [Except.isOk, Except.toBool] at h

/-- C6 witness: the success characterization evaluated on a concrete run
of the collector. -/
theorem c6_collector_validation_witness :
    str "a" ≠ [] ∧ str "b" ≠ [] ∧ str "c" ≠ [] ∧ str "5" ≠ [] ∧
      (Config.mk (str "a") (str "b") (str "c") 5).name = trimStr (str "a") ∧
      (Config.mk (str "a") (str "b") (str "c") 5).domain = trimStr (str "b") ∧
      (Config.mk (str "a") (str "b") (str "c") 5).title = trimStr (str "c") ∧
      parseFloat (str "5") = some (Config.mk (str "a") (str "b") (str "c") 5).price ∧
      0 < (Config.mk (str "a") (str "b") (str "c") 5).price :=
  c6_collector_validation.1 (str "a") (str "b") (str "c") (str "5")
    (Config.mk (str "a") (str "b") (str "c") 5) rfl

/-- C9 counterexample: a value containing an equals sign is not kept
whole: the loader keeps only the segment between the first and the second
equals sign, truncating sk=extra to sk. -/
theorem c9_counterexample :
    parseEnvLine (str "STRIPE_SECRET=sk=extra") = some (str "STRIPE_SECRET", str "sk") ∧
      str "sk" ≠ str "sk=extra" :=
  ⟨rfl, by decide⟩

theorem splitAux_nil (sep : Char) (acc : Str) :
    splitOnCharAux sep [] acc = [acc.reverse] := rfl

theorem splitAux_cons_sep (sep : Char) (s acc : Str) :
    splitOnCharAux sep (sep :: s) acc = acc.reverse :: splitOnCharAux sep s [] := by
  simp [splitOnCharAux]

theorem splitAux_no_sep (sep : Char) :
    ∀ (u s acc : Str), (∀ c ∈ u, c ≠ sep) →
      splitOnCharAux sep (u ++ s) acc = splitOnCharAux sep s (u.reverse ++ acc)
  | [], s, acc, _ => by simp
  | c :: u, s, acc, h => by
    have hc : c ≠ sep := h c (by simp)
    have hstep : splitOnCharAux sep ((c :: u) ++ s) acc = splitOnCharAux sep (u ++ s) (c :: acc) := by
      simp [splitOnCharAux, if_neg hc]
    rw [hstep, splitAux_no_sep sep u s (c :: acc) (fun x hx => h x (by simp [hx]))]
    simp

theorem dropWhile_head_false {α : Type} (p : α → Bool) :
    ∀ (s : List α) (c : α) (rest : List α), s.dropWhile p = c :: rest → p c = false
  | [], c, rest, h => by simp at h
  | a :: s, c, rest, h => by
    by_cases ha : p a
    · rw [List.dropWhile_cons_of_pos ha] at h
      exact dropWhile_head_false p s c rest h
    · rw [List.dropWhile_cons_of_neg ha] at h
      cases h
      simpa using ha

theorem splitOnChar_head (s : Str) (sep : Char) :
    splitOnChar s sep =
      s.takeWhile (fun c => c != sep) ::
        (match s.dropWhile (fun c => c != sep) with
         | [] => ([] : List Str)
         | _ :: rest => splitOnChar rest sep) := by
  have hu : ∀ c ∈ s.takeWhile (fun c => c != sep), c ≠ sep := by
    intro c hc
    simpa using List.mem_takeWhile_imp hc
  have hsplit := List.takeWhile_append_dropWhile (p := fun c => c != sep) (l := s)
  unfold splitOnChar
  conv_lhs => rw [← hsplit]
  rw [splitAux_no_sep sep _ _ [] hu]
  cases hd : s.dropWhile (fun c => c != sep) with
  | nil => simp [splitAux_nil]
  | cons c rest =>
    have hcsep : c = sep := by
      have := dropWhile_head_false (fun c => c != sep) s c rest hd
      simpa using this
    subst hcsep
    rw [splitAux_cons_sep]
    simp [splitOnChar]

theorem mem_trimStr {c : Char} {s : Str} (h : c ∈ trimStr s) : c ∈ s := by
  unfold trimStr at h
  rw [List.mem_reverse] at h
  have h2 := (List.dropWhile_sublist (l := (s.dropWhile isWS).reverse) (p := isWS)).mem h
  rw [List.mem_reverse] at h2
  exact (List.dropWhile_sublist (l := s) (p := isWS)).mem h2

/-- C9 (amended): the loader takes the segment before the first equals
sign as the key and only the segment strictly between the first and the
second equals sign (or the end of the line) as the value — a value
containing an equals sign is truncated at the second one, and a line
whose first two equals signs are adjacent is ignored.  Lines without an
equals sign, or whose key segment or value segment is empty, are ignored;
consequently a stored value never contains an equals sign. -/
theorem c9_first_two_segments (line : Str) :
    parseEnvLine line =
      (if line.dropWhile (fun c => c != '=') = [] then none
       else
         if line.takeWhile (fun c => c != '=') = [] ∨
             ((line.dropWhile (fun c => c != '=')).tail).takeWhile (fun c => c != '=') = [] then
           none
         else
           some (trimStr (line.takeWhile (fun c => c != '=')),
             trimStr (((line.dropWhile (fun c => c != '=')).tail).takeWhile (fun c => c != '=')))) ∧
    (∀ k v, parseEnvLine line = some (k, v) → '=' ∉ v) := by
  have hmain : parseEnvLine line =
      (if line.dropWhile (fun c => c != '=') = [] then none
       else
         if line.takeWhile (fun c => c != '=') = [] ∨
             ((line.dropWhile (fun c => c != '=')).tail).takeWhile (fun c => c != '=') = [] then
           none
         else
           some (trimStr (line.takeWhile (fun c => c != '=')),
             trimStr (((line.dropWhile (fun c => c != '=')).tail).takeWhile (fun c => c != '=')))) := by
    unfold parseEnvLine
    rw [splitOnChar_head]
    cases hd : line.dropWhile (fun c => c != '=') with
    | nil => rfl
    | cons c rest =>
      simp only [List.tail_cons]
      rw [splitOnChar_head rest]
      by_cases hk : line.takeWhile (fun c => c != '=') = []
      · simp [hk]
      · by_cases hv : rest.takeWhile (fun c => c != '=') = []
        · simp [hk, hv]
        · simp [hk, hv]
  refine ⟨hmain, ?_⟩
  intro k v hkv
  rw [hmain] at hkv
  by_cases hd : line.dropWhile (fun c => c != '=') = []
  · simp [hd] at hkv
  · by_cases hk : line.takeWhile (fun c => c != '=') = []
    · simp [hd, hk] at hkv
    · by_cases hv : ((line.dropWhile (fun c => c != '=')).tail).takeWhile (fun c => c != '=') = []
      · simp [hd, hk, hv] at hkv
      · rw [if_neg hd, if_neg (by simp [hk, hv])] at hkv
        have hveq : v = trimStr (((line.dropWhile (fun c => c != '=')).tail).takeWhile
            (fun c => c != '=')) := by
          have h2 := Option.some.inj hkv
          exact (congrArg Prod.snd h2).symm
        intro hmem
        rw [hveq] at hmem
        have := List.mem_takeWhile_imp (mem_trimStr hmem)
        simp at this

/-- C9 witness: the equality evaluated on a concrete line, and the
no-equals-in-value consequence applied at a concrete parse. -/
theorem c9_first_two_segments_witness :
    (parseEnvLine (str "A=b=c") =
      (if (str "A=b=c").dropWhile (fun c => c != '=') = [] then none
       else
         if (str "A=b=c").takeWhile (fun c => c != '=') = [] ∨
             (((str "A=b=c").dropWhile (fun c => c != '=')).tail).takeWhile
               (fun c => c != '=') = [] then
           none
         else
           some (trimStr ((str "A=b=c").takeWhile (fun c => c != '=')),
             trimStr ((((str "A=b=c").dropWhile (fun c => c != '=')).tail).takeWhile
               (fun c => c != '='))))) ∧
      '=' ∉ str "b" :=
  ⟨(c9_first_two_segments (str "A=b=c")).1,
   (c9_first_two_segments (str "A=b=c")).2 (str "A") (str "b") rfl⟩

theorem joinWith_cons_cons (sep : Char) (l l2 : Str) (ls : List Str) :
    joinWith sep (l :: l2 :: ls) = l ++ sep :: joinWith sep (l2 :: ls) := rfl

theorem splitOnChar_joinWith (sep : Char) :
    ∀ ls : List Str, ls ≠ [] → (∀ l ∈ ls, sep ∉ l) →
      splitOnChar (joinWith sep ls) sep = ls
  | [], h, _ => absurd rfl h
  | [l], _, h => by
    have hl : ∀ c ∈ l, c ≠ sep := fun c hc he => (h l (by simp)) (he ▸ hc)
    have h0 := splitAux_no_sep sep l [] [] hl
    unfold splitOnChar
    show splitOnCharAux sep (joinWith sep [l]) [] = [l]
    have hj : joinWith sep [l] = l ++ [] := by simp [joinWith]
    rw [hj, h0]
    rw [splitAux_nil]
    simp
  | l :: l2 :: ls, _, h => by
    have hl : ∀ c ∈ l, c ≠ sep := fun c hc he => (h l (by simp)) (he ▸ hc)
    rw [joinWith_cons_cons]
    unfold splitOnChar
    rw [splitAux_no_sep sep l (sep :: joinWith sep (l2 :: ls)) [] hl, splitAux_cons_sep]
    have ih := splitOnChar_joinWith sep (l2 :: ls) (by simp)
      (fun x hx => h x (by simp [hx]))
    unfold splitOnChar at ih
    rw [ih]
    simp

theorem hexEncode_cons (b : Nat) (bs : List Nat) :
    hexEncode (b :: bs) = hexByte b ++ hexEncode bs := by
  simp [hexEncode]

theorem hexEncode_length : ∀ bs : List Nat, (hexEncode bs).length = 2 * bs.length
  | [] => rfl
  | b :: bs => by
    rw [hexEncode_cons]
    simp [hexByte, hexEncode_length bs]
    ring

theorem hexChar_isHex : ∀ n : Nat, n < 16 → isHexC (hexChar n) = true := by decide

theorem hexByte_isHex {b : Nat} (h : b < 256) : ∀ c ∈ hexByte b, isHexC c = true := by
  intro c hc
  have hdiv : b / 16 < 16 := Nat.div_lt_of_lt_mul h
  have hmod : b % 16 < 16 := Nat.mod_lt b (by norm_num)
  simp only [hexByte, List.mem_cons, List.mem_singleton, List.not_mem_nil, or_false] at hc
  rcases hc with hc | hc
  · rw [hc]; exact hexChar_isHex _ hdiv
  · rw [hc]; exact hexChar_isHex _ hmod

theorem hexEncode_isHex : ∀ bs : List Nat, (∀ b ∈ bs, b < 256) →
    ∀ c ∈ hexEncode bs, isHexC c = true
  | [], _, c, hc => by simp [hexEncode] at hc
  | b :: bs, h, c, hc => by
    rw [hexEncode_cons] at hc
    rcases List.mem_append.1 hc with hc | hc
    · exact hexByte_isHex (h b (by simp)) c hc
    · exact hexEncode_isHex bs (fun x hx => h x (by simp [hx])) c hc

theorem isHexC_ne_newline {c : Char} (h : isHexC c = true) : c ≠ '\n' := by
  intro he
  rw [he] at h
  exact absurd h (by decide)

/-- C4: on a successful run the secrets writer emits exactly one file
write, at the project root's .dev.vars, whose content splits on newlines
into exactly the five KEY=value lines in the fixed order — billing secret
key and publishable key carrying the loaded credential values unchanged,
then the payment link, the webhook signing secret, and a generated
database secret of exactly 32 lowercase hexadecimal characters. -/
theorem c4_dev_vars_five_lines (envVars : List (Str × Str)) (s p link wh projectRoot : Str)
    (bytes : List Nat)
    (hs : envVars.lookup (str "STRIPE_SECRET") = some s)
    (hp : envVars.lookup (str "STRIPE_PUBLISHABLE_KEY") = some p)
    (hsn : '\n' ∉ s) (hpn : '\n' ∉ p) (hln : '\n' ∉ link) (hwn : '\n' ∉ wh)
    (hlen : bytes.length = 16) (hbytes : ∀ b ∈ bytes, b < 256) :
    createDevVars projectRoot envVars link wh bytes =
        [Effect.writeFileE (projectRoot ++ str "/.dev.vars")
          (devVarsContent s p link wh (hexEncode bytes))] ∧
      splitOnChar (devVarsContent s p link wh (hexEncode bytes)) '\n' =
        [str "STRIPE_SECRET=" ++ s, str "STRIPE_PUBLISHABLE_KEY=" ++ p,
         str "STRIPE_PAYMENT_LINK=" ++ link, str "STRIPE_WEBHOOK_SIGNING_SECRET=" ++ wh,
         str "DB_SECRET=" ++ hexEncode bytes] ∧
      (hexEncode bytes).length = 32 ∧
      (∀ c ∈ hexEncode bytes, isHexC c = true) := by
  have hhex : ∀ c ∈ hexEncode bytes, isHexC c = true := hexEncode_isHex bytes hbytes
  refine ⟨?_, ?_, ?_, hhex⟩
  · simp [createDevVars, lookupD, hs, hp]
  · unfold devVarsContent
    apply splitOnChar_joinWith
    · simp
    · intro l hl
      simp only [List.mem_cons, List.not_mem_nil, or_false] at hl
      rcases hl with h | h | h | h | h <;> rw [h] <;> intro hmem <;>
        rcases List.mem_append.1 hmem with hm | hm
      · revert hm; decide
      · exact hsn hm
      · revert hm; decide
      · exact hpn hm
      · revert hm; decide
      · exact hln hm
      · revert hm; decide
      · exact hwn hm
      · revert hm; decide
      · exact isHexC_ne_newline (hhex '\n' hm) rfl
  · rw [hexEncode_length, hlen]

/-- C4 witness: the theorem evaluated on a concrete successful run. -/
theorem c4_dev_vars_five_lines_witness :
    createDevVars (str "myapp")
        [(str "STRIPE_SECRET", str "sk_x"), (str "STRIPE_PUBLISHABLE_KEY", str "pk_x")]
        (str "https://buy.stripe.com/x") (str "whsec_1")
        [1, 2, 3, 4, 5, 6, 7, 8, 9, 10, 11, 12, 13, 14, 15, 16] =
        [Effect.writeFileE (str "myapp" ++ str "/.dev.vars")
          (devVarsContent (str "sk_x") (str "pk_x") (str "https://buy.stripe.com/x")
            (str "whsec_1")
            (hexEncode [1, 2, 3, 4, 5, 6, 7, 8, 9, 10, 11, 12, 13, 14, 15, 16]))] ∧
      splitOnChar (devVarsContent (str "sk_x") (str "pk_x") (str "https://buy.stripe.com/x")
          (str "whsec_1")
          (hexEncode [1, 2, 3, 4, 5, 6, 7, 8, 9, 10, 11, 12, 13, 14, 15, 16])) '\n' =
        [str "STRIPE_SECRET=" ++ str "sk_x", str "STRIPE_PUBLISHABLE_KEY=" ++ str "pk_x",
         str "STRIPE_PAYMENT_LINK=" ++ str "https://buy.stripe.com/x",
         str "STRIPE_WEBHOOK_SIGNING_SECRET=" ++ str "whsec_1",
         str "DB_SECRET=" ++ hexEncode [1, 2, 3, 4, 5, 6, 7, 8, 9, 10, 11, 12, 13, 14, 15, 16]] ∧
      (hexEncode [1, 2, 3, 4, 5, 6, 7, 8, 9, 10, 11, 12, 13, 14, 15, 16]).length = 32 ∧
      (∀ c ∈ hexEncode [1, 2, 3, 4, 5, 6, 7, 8, 9, 10, 11, 12, 13, 14, 15, 16],
        isHexC c = true) :=
  c4_dev_vars_five_lines
    [(str "STRIPE_SECRET", str "sk_x"), (str "STRIPE_PUBLISHABLE_KEY", str "pk_x")]
    (str "sk_x") (str "pk_x") (str "https://buy.stripe.com/x") (str "whsec_1") (str "myapp")
    [1, 2, 3, 4, 5, 6, 7, 8, 9, 10, 11, 12, 13, 14, 15, 16]
    (by decide) (by decide) (by decide) (by decide) (by decide) (by decide)
    (by decide) (by decide)

mutual
theorem copyTree_shapes (s d : Str) : ∀ t : FTree, ∀ e ∈ copyTreeEffects s d t,
    (∃ p, e = .mkdirE p) ∨ (∃ a b, e = .copyFileE a b)
  | .file n c, e, he => by
    simp only [copyTreeEffects, List.mem_singleton] at he
    exact Or.inr ⟨_, _, he⟩
  | .dir n cs, e, he => by
    simp only [copyTreeEffects, List.mem_cons] at he
    rcases he with he | he
    · exact Or.inl ⟨_, he⟩
    · exact copyTrees_shapes (s ++ '/' :: n) (d ++ '/' :: n) cs e he
theorem copyTrees_shapes (s d : Str) : ∀ ts : FTrees, ∀ e ∈ copyTreesEffects s d ts,
    (∃ p, e = .mkdirE p) ∨ (∃ a b, e = .copyFileE a b)
  | .nil, e, he => by simp [copyTreesEffects] at he
  | .cons t ts, e, he => by
    simp only [copyTreesEffects, List.mem_append] at he
    rcases he with he | he
    · exact copyTree_shapes s d t e he
    · exact copyTrees_shapes s d ts e he
end

mutual
theorem substTree_shapes (r : List (Str × Str)) (d : Str) : ∀ t : FTree,
    ∀ e ∈ substTree r d t, ∃ p c, e = .writeFileE p c
  | .file n c, e, he => by
    simp only [substTree, List.mem_singleton] at he
    exact ⟨_, _, he⟩
  | .dir n cs, e, he => by
    rw [substTree] at he
    split at he
    · simp at he
    · exact substTrees_shapes r (d ++ '/' :: n) cs e he
theorem substTrees_shapes (r : List (Str × Str)) (d : Str) : ∀ ts : FTrees,
    ∀ e ∈ substTrees r d ts, ∃ p c, e = .writeFileE p c
  | .nil, e, he => by simp [substTrees] at he
  | .cons t ts, e, he => by
    simp only [substTrees, List.mem_append] at he
    rcases he with he | he
    · exact substTree_shapes r d t e he
    · exact substTrees_shapes r d ts e he
end

theorem callsTo_append (u : Str) (a b : List Effect) :
    callsTo u (a ++ b) = (callsTo u a || callsTo u b) := by
  simp [callsTo]

theorem callsTo_copyTrees (u s d : Str) (ts : FTrees) :
    callsTo u (copyTreesEffects s d ts) = false := by
  apply List.any_eq_false.2
  intro e he
  rcases copyTrees_shapes s d ts e he with ⟨p, rfl⟩ | ⟨a, b, rfl⟩ <;> simp

theorem callsTo_substTrees (u : Str) (r : List (Str × Str)) (d : Str) (ts : FTrees) :
    callsTo u (substTrees r d ts) = false := by
  apply List.any_eq_false.2
  intro e he
  rcases substTrees_shapes r d ts e he with ⟨p, c, rfl⟩
  simp

theorem gitCmds_append (a b : List Effect) : gitCmds (a ++ b) = gitCmds a ++ gitCmds b := by
  simp [gitCmds]

theorem gitCmds_copyTrees (s d : Str) (ts : FTrees) : gitCmds (copyTreesEffects s d ts) = [] := by
  apply List.filterMap_eq_nil_iff.2
  intro e he
  rcases copyTrees_shapes s d ts e he with ⟨p, rfl⟩ | ⟨a, b, rfl⟩ <;> rfl

theorem gitCmds_substTrees (r : List (Str × Str)) (d : Str) (ts : FTrees) :
    gitCmds (substTrees r d ts) = [] := by
  apply List.filterMap_eq_nil_iff.2
  intro e he
  rcases substTrees_shapes r d ts e he with ⟨p, c, rfl⟩
  rfl

theorem noNet_copyTrees (u s d : Str) (ts : FTrees) : ∀ e ∈ copyTreesEffects s d ts,
    (match e with
      | Effect.netCallE u2 _ => u2 == u
      | _ => false) = false := by
  intro e he
  rcases copyTrees_shapes s d ts e he with ⟨p, h⟩ | ⟨a, b, h⟩ <;> subst h <;> rfl

theorem noNet_substTrees (u : Str) (r : List (Str × Str)) (d : Str) (ts : FTrees) :
    ∀ e ∈ substTrees r d ts,
      (match e with
        | Effect.netCallE u2 _ => u2 == u
        | _ => false) = false := by
  intro e he
  rcases substTrees_shapes r d ts e he with ⟨p, c, h⟩
  subst h
  rfl

theorem products_beq_prices : (productsUrl == pricesUrl) = false := by decide

theorem products_beq_links : (productsUrl == paymentLinksUrl) = false := by decide

theorem products_beq_webhooks : (productsUrl == webhookEndpointsUrl) = false := by decide

/-- C2: when the product-creation call returns a non-success response, the
run makes no price-creation call, no payment-link call and no webhook
call, terminates with a BillingAPIError naming the product step and
carrying the raw error body, and its whole trace consists of the effects
made so far plus that single products call — in particular nothing
deletes the already-created project directory or its files. -/
theorem c2_product_failure_aborts (i : MainInput) (ev : List (Str × Str)) (cfg : Config)
    (ts : FTrees)
    (hload : loadEnvVars i.credFileExists i.credContent = .ok ev)
    (hprompt : promptForProjectDetails i.promptName i.promptDomain i.promptTitle i.promptPrice
      = .ok cfg)
    (htmpl : i.template = some ts) (htarget : i.targetExists = false)
    (hinstall : i.installOk = true) (hprod : i.productResp.ok = false) :
    main i =
      ((Effect.mkdirE cfg.name ::
          (copyTreesEffects (str "template") cfg.name ts ++
            [Effect.execE (str "git init"),
             Effect.execE (gitRemoteCmd i.processEnvOwner cfg.name)])) ++
        substTrees (templateReplacements cfg) cfg.name ts ++
        [Effect.execE (str "npm install")] ++
        [Effect.netCallE productsUrl [(str "name", cfg.title), (str "type", str "service")]],
       .error (.billingAPI "product" i.productResp.body)) ∧
      callsTo pricesUrl (main i).1 = false ∧
      callsTo paymentLinksUrl (main i).1 = false ∧
      callsTo webhookEndpointsUrl (main i).1 = false := by
  have hmain : main i =
      ((Effect.mkdirE cfg.name ::
          (copyTreesEffects (str "template") cfg.name ts ++
            [Effect.execE (str "git init"),
             Effect.execE (gitRemoteCmd i.processEnvOwner cfg.name)])) ++
        substTrees (templateReplacements cfg) cfg.name ts ++
        [Effect.execE (str "npm install")] ++
        [Effect.netCallE productsUrl [(str "name", cfg.title), (str "type", str "service")]],
       .error (.billingAPI "product" i.productResp.body)) := by
    rw [main, hload, hprompt, htmpl]
    simp only [createProject, htarget, if_false, Bool.false_eq_true,
      installDependencies, hinstall, if_true, createStripePaymentLink, hprod]
  refine ⟨hmain, ?_, ?_, ?_⟩ <;> rw [hmain] <;>
    simp [callsTo_append, callsTo, callsTo_copyTrees, callsTo_substTrees,
      products_beq_prices, products_beq_links, products_beq_webhooks] <;>
    exact ⟨noNet_copyTrees _ _ _ _, noNet_substTrees _ _ _ _⟩

/-- C2 witness: a concrete run whose product call fails. -/
theorem c2_product_failure_aborts_witness :
    main { baseInput with productResp := errResp } =
      ((Effect.mkdirE (Config.mk (str "myapp") (str "myapp.example.com") (str "My App") 5).name ::
          (copyTreesEffects (str "template")
              (Config.mk (str "myapp") (str "myapp.example.com") (str "My App") 5).name
              (.cons (.file (str "README.md") (str "hi")) .nil) ++
            [Effect.execE (str "git init"),
             Effect.execE (gitRemoteCmd { baseInput with productResp := errResp }.processEnvOwner
               (Config.mk (str "myapp") (str "myapp.example.com") (str "My App") 5).name)])) ++
        substTrees
          (templateReplacements (Config.mk (str "myapp") (str "myapp.example.com") (str "My App") 5))
          (Config.mk (str "myapp") (str "myapp.example.com") (str "My App") 5).name
          (.cons (.file (str "README.md") (str "hi")) .nil) ++
        [Effect.execE (str "npm install")] ++
        [Effect.netCallE productsUrl
          [(str "name", (Config.mk (str "myapp") (str "myapp.example.com") (str "My App") 5).title),
           (str "type", str "service")]],
       .error (.billingAPI "product" { baseInput with productResp := errResp }.productResp.body)) ∧
      callsTo pricesUrl (main { baseInput with productResp := errResp }).1 = false ∧
      callsTo paymentLinksUrl (main { baseInput with productResp := errResp }).1 = false ∧
      callsTo webhookEndpointsUrl (main { baseInput with productResp := errResp }).1 = false :=
  c2_product_failure_aborts { baseInput with productResp := errResp }
    (parseEnvVars baseInput.credContent)
    (Config.mk (str "myapp") (str "myapp.example.com") (str "My App") 5)
    (.cons (.file (str "README.md") (str "hi")) .nil)
    rfl rfl rfl rfl rfl rfl

/-- C8: when the pipeline reaches the deployment step (install succeeded,
all billing calls succeeded) and the secret-upload or deploy command
fails, the failure stays inside deployProject: the run still finishes
with exit status 0 and the trace carries the warning lines naming the two
manual follow-up commands. -/
theorem c8_deploy_failure_nonfatal (i : MainInput) (ev : List (Str × Str)) (cfg : Config)
    (ts : FTrees)
    (hload : loadEnvVars i.credFileExists i.credContent = .ok ev)
    (hprompt : promptForProjectDetails i.promptName i.promptDomain i.promptTitle i.promptPrice
      = .ok cfg)
    (htmpl : i.template = some ts) (htarget : i.targetExists = false)
    (hinstall : i.installOk = true) (hprod : i.productResp.ok = true)
    (hprice : i.priceResp.ok = true) (hlink : i.linkResp.ok = true)
    (hweb : i.webhookResp.ok = true)
    (hfail : i.secretUploadOk = false ∨ i.deployOk = false) :
    exitCode (main i).2 = 0 ∧
      Effect.warnE manualCmd1 ∈ (main i).1 ∧
      Effect.warnE manualCmd2 ∈ (main i).1 := by
  have hmain : main i =
      ((Effect.mkdirE cfg.name ::
          (copyTreesEffects (str "template") cfg.name ts ++
            [Effect.execE (str "git init"),
             Effect.execE (gitRemoteCmd i.processEnvOwner cfg.name)])) ++
        substTrees (templateReplacements cfg) cfg.name ts ++
        [Effect.execE (str "npm install")] ++
        (createStripePaymentLink cfg i.productResp i.priceResp i.linkResp).1 ++
        (createStripeWebhook cfg i.webhookResp).1 ++
        createDevVars cfg.name ev i.linkResp.url i.webhookResp.secret i.randomBytes ++
        deployProject i.secretUploadOk i.deployOk,
       .ok ()) := by
    rw [main, hload, hprompt, htmpl]
    simp only [createProject, htarget, if_false, Bool.false_eq_true,
      installDependencies, hinstall, if_true, createStripePaymentLink, hprod, hprice, hlink,
      createStripeWebhook, hweb]
  rw [hmain]
  refine ⟨rfl, ?_, ?_⟩ <;>
    · apply List.mem_append.2
      apply Or.inr
      rcases hfail with hf | hf
      · rw [hf]
        simp [deployProject, deployWarnings]
      · rw [hf]
        cases i.secretUploadOk <;> simp [deployProject, deployWarnings]

/-- C8 witness: a concrete run whose deploy command fails. -/
theorem c8_deploy_failure_nonfatal_witness :
    exitCode (main { baseInput with deployOk := false }).2 = 0 ∧
      Effect.warnE manualCmd1 ∈ (main { baseInput with deployOk := false }).1 ∧
      Effect.warnE manualCmd2 ∈ (main { baseInput with deployOk := false }).1 :=
  c8_deploy_failure_nonfatal { baseInput with deployOk := false }
    (parseEnvVars baseInput.credContent)
    (Config.mk (str "myapp") (str "myapp.example.com") (str "My App") 5)
    (.cons (.file (str "README.md") (str "hi")) .nil)
    rfl rfl rfl rfl rfl rfl rfl rfl rfl (Or.inr rfl)

theorem isPre_git_npm : isPre (str "git") (str "npm install") = false := by decide

theorem isPre_git_wrangler1 : isPre (str "git") (str "wrangler secret bulk .dev.vars") = false := by
  decide

theorem isPre_git_wrangler2 : isPre (str "git") (str "wrangler deploy") = false := by decide

theorem noGit_substTrees (r : List (Str × Str)) (d : Str) (ts : FTrees) :
    ∀ e ∈ substTrees r d ts,
      (match e with
        | Effect.execE c => if isPre (str "git") c = true then some c else none
        | _ => none) = none := by
  intro e he
  rcases substTrees_shapes r d ts e he with ⟨p, c, h⟩
  subst h
  rfl

theorem gitCmds_main_eq (i : MainInput) (ev : List (Str × Str)) (cfg : Config)
    (hload : loadEnvVars i.credFileExists i.credContent = .ok ev)
    (hprompt : promptForProjectDetails i.promptName i.promptDomain i.promptTitle i.promptPrice
      = .ok cfg) :
    gitCmds (main i).1 =
      gitCmds (createProject i.template i.targetExists i.processEnvOwner cfg).1 := by
  rw [main, hload, hprompt]
  dsimp only
  rcases hcp : createProject i.template i.targetExists i.processEnvOwner cfg with ⟨es1, res⟩
  cases res with
  | error e => rfl
  | ok ts =>
    cases hi : i.installOk <;>
      cases hpr : i.productResp.ok <;>
        cases hpc : i.priceResp.ok <;>
          cases hlk : i.linkResp.ok <;>
            cases hwh : i.webhookResp.ok <;>
              cases hup : i.secretUploadOk <;>
                cases hdp : i.deployOk <;>
                  simp [installDependencies, createStripePaymentLink, createStripeWebhook,
                    createDevVars, deployProject, deployWarnings, gitCmds_append,
                    gitCmds_substTrees, gitCmds, isPre_git_npm, isPre_git_wrangler1,
                    isPre_git_wrangler2, hi, hpr, hpc, hlk, hwh, hup, hdp] <;>
                  exact noGit_substTrees _ _ _

/-- C10: the version-control remote URL comes from the process
environment's GITHUB_OWNER with the literal fallback user when unset (the
full command is spelled out in the success trace of createProject), and
the GITHUB_OWNER loaded from the credentials file plays no role: two runs
differing only in the credentials file content execute exactly the same
git commands. -/
theorem c10_remote_from_process_env :
    (∀ (ts : FTrees) (owner : Option Str) (cfg : Config),
      createProject (some ts) false owner cfg =
        (Effect.mkdirE cfg.name ::
          (copyTreesEffects (str "template") cfg.name ts ++
            [Effect.execE (str "git init"),
             Effect.execE (str "git remote add origin https://github.com/" ++
               owner.getD (str "user") ++ '/' :: cfg.name)]),
         .ok ts)) ∧
    (∀ (i : MainInput) (c2 : Str) (ev1 ev2 : List (Str × Str)) (cfg : Config),
      loadEnvVars i.credFileExists i.credContent = .ok ev1 →
      loadEnvVars i.credFileExists c2 = .ok ev2 →
      promptForProjectDetails i.promptName i.promptDomain i.promptTitle i.promptPrice = .ok cfg →
      gitCmds (main i).1 = gitCmds (main { i with credContent := c2 }).1) := by
  constructor
  · intro ts owner cfg
    simp [createProject, gitRemoteCmd]
  · intro i c2 ev1 ev2 cfg hload1 hload2 hprompt
    rw [gitCmds_main_eq i ev1 cfg hload1 hprompt,
      gitCmds_main_eq { i with credContent := c2 } ev2 cfg hload2 hprompt]

/-- C10 witness: the remote command with the fallback owner on a concrete
tree, and the credentials-invariance of the git commands on a concrete
pair of runs. -/
theorem c10_remote_from_process_env_witness :
    (createProject (some .nil) false none
        (Config.mk (str "myapp") (str "myapp.example.com") (str "My App") 5) =
      (Effect.mkdirE (Config.mk (str "myapp") (str "myapp.example.com") (str "My App") 5).name ::
        (copyTreesEffects (str "template")
            (Config.mk (str "myapp") (str "myapp.example.com") (str "My App") 5).name .nil ++
          [Effect.execE (str "git init"),
           Effect.execE (str "git remote add origin https://github.com/" ++
             Option.getD none (str "user") ++ '/' ::
               (Config.mk (str "myapp") (str "myapp.example.com") (str "My App") 5).name)]),
       .ok .nil)) ∧
      gitCmds (main baseInput).1 =
        gitCmds (main { baseInput with
          credContent := str "STRIPE_SECRET=sk_x\nSTRIPE_PUBLISHABLE_KEY=pk_x\nGITHUB_OWNER=other" }).1 :=
  ⟨c10_remote_from_process_env.1 .nil none
      (Config.mk (str "myapp") (str "myapp.example.com") (str "My App") 5),
   c10_remote_from_process_env.2 baseInput
     (str "STRIPE_SECRET=sk_x\nSTRIPE_PUBLISHABLE_KEY=pk_x\nGITHUB_OWNER=other")
     (parseEnvVars baseInput.credContent)
     (parseEnvVars (str "STRIPE_SECRET=sk_x\nSTRIPE_PUBLISHABLE_KEY=pk_x\nGITHUB_OWNER=other"))
     (Config.mk (str "myapp") (str "myapp.example.com") (str "My App") 5)
     rfl rfl rfl⟩

theorem replaceAllF_nil (repl pat : Str) : ∀ n, replaceAllF repl pat n [] = []
  | 0 => rfl
  | n + 1 => by
    rw [replaceAllF]
    split
    next h =>
      rcases h with ⟨h1, h2⟩
      cases pat with
      | nil => exact absurd rfl h2
      | cons a as => simp [isPre] at h1
    next => rfl

theorem isPre_length : ∀ p s : Str, isPre p s = true → p.length ≤ s.length
  | [], s, _ => by simp
  | a :: as, [], h => by simp [isPre] at h
  | a :: as, b :: bs, h => by
    rw [isPre, Bool.and_eq_true] at h
    have := isPre_length as bs h.2
    simpa using this

theorem replaceAllF_fuel (repl pat : Str) :
    ∀ n m s, s.length ≤ n → s.length ≤ m → replaceAllF repl pat n s = replaceAllF repl pat m s
  | 0, m, s, hn, _ => by
    have hs : s = [] := List.length_eq_zero.1 (Nat.le_zero.1 hn)
    subst hs
    rw [replaceAllF_nil, replaceAllF_nil]
  | n + 1, m, [], _, _ => by rw [replaceAllF_nil, replaceAllF_nil]
  | n + 1, m, c :: cs, hn, hm => by
    rcases m with _ | m'
    · exact absurd hm (by simp)
    rw [replaceAllF, replaceAllF]
    split
    next h =>
      rcases h with ⟨h1, h2⟩
      have hp1 : 1 ≤ pat.length := by
        cases pat with
        | nil => exact absurd rfl h2
        | cons a as => simp
      have hplen := isPre_length pat (c :: cs) h1
      congr 1
      apply replaceAllF_fuel repl pat n m'
      · simp only [List.length_drop]
        simp only [List.length_cons] at hn hplen ⊢
        omega
      · simp only [List.length_drop]
        simp only [List.length_cons] at hm hplen ⊢
        omega
    next =>
      congr 1
      apply replaceAllF_fuel repl pat n m'
      · simpa using Nat.le_of_succ_le_succ hn
      · simpa using Nat.le_of_succ_le_succ hm

theorem replaceAll_eq (s pat repl : Str) :
    replaceAll s pat repl =
      if isPre pat s = true ∧ pat ≠ [] then repl ++ replaceAll (s.drop pat.length) pat repl
      else
        match s with
        | [] => []
        | c :: cs => c :: replaceAll cs pat repl := by
  cases s with
  | nil =>
    rw [replaceAll]
    simp only [List.length_nil]
    rw [replaceAllF_nil]
    split
    next h =>
      rcases h with ⟨h1, h2⟩
      cases pat with
      | nil => exact absurd rfl h2
      | cons a as => simp [isPre] at h1
    next => rfl
  | cons c cs =>
    show replaceAllF repl pat (cs.length + 1) (c :: cs) = _
    rw [replaceAllF]
    split
    next h =>
      rcases h with ⟨h1, h2⟩
      have hp1 : 1 ≤ pat.length := by
        cases pat with
        | nil => exact absurd rfl h2
        | cons a as => simp
      have hplen := isPre_length pat (c :: cs) h1
      congr 1
      apply replaceAllF_fuel
      · simp only [List.length_drop]
        simp only [List.length_cons] at hplen ⊢
        omega
      · exact le_refl _
    next => rfl

theorem isPre_append_self : ∀ p t : Str, isPre p (p ++ t) = true
  | [], _ => rfl
  | a :: as, t => by simp [isPre, isPre_append_self as t]

theorem replaceAll_token_head (pat t repl : Str) (hne : pat ≠ []) :
    replaceAll (pat ++ t) pat repl = repl ++ replaceAll t pat repl := by
  rw [replaceAll_eq, if_pos ⟨isPre_append_self pat t, hne⟩, List.drop_left]

theorem replaceAll_cons_of_not_pre (repl pat : Str) (c : Char) (s : Str)
    (h : isPre pat (c :: s) = false) :
    replaceAll (c :: s) pat repl = c :: replaceAll s pat repl := by
  rw [replaceAll_eq, if_neg (by simp [h])]

theorem replaceAll_skip_chunk (repl p2 : Str) :
    ∀ u t : Str, (∀ c ∈ u, c ≠ '\x7b') →
      replaceAll (u ++ t) ('\x7b' :: p2) repl = u ++ replaceAll t ('\x7b' :: p2) repl
  | [], t, _ => by simp
  | c :: u, t, h => by
    have hc : c ≠ '\x7b' := h c (by simp)
    rw [List.cons_append]
    rw [replaceAll_cons_of_not_pre repl ('\x7b' :: p2) c (u ++ t)
      (by simp [isPre]; intro hcon; exact absurd hcon.symm hc)]
    rw [replaceAll_skip_chunk repl p2 u t (fun x hx => h x (by simp [hx]))]
    simp

theorem replaceAll_skip_token (repl κ κ2 t : Str)
    (hκ : κ ≠ []) (hκ2 : κ2 ≠ []) (hbf : ∀ c ∈ κ2, c ≠ '\x7b')
    (hhead : κ.head? ≠ κ2.head?) :
    replaceAll (('\x7b' :: '\x7b' :: (κ2 ++ ['\x7d', '\x7d'])) ++ t)
        ('\x7b' :: '\x7b' :: (κ ++ ['\x7d', '\x7d'])) repl =
      ('\x7b' :: '\x7b' :: (κ2 ++ ['\x7d', '\x7d'])) ++
        replaceAll t ('\x7b' :: '\x7b' :: (κ ++ ['\x7d', '\x7d'])) repl := by
  obtain ⟨a, κa, rfl⟩ := List.exists_cons_of_ne_nil hκ
  obtain ⟨b, κb, rfl⟩ := List.exists_cons_of_ne_nil hκ2
  have hab : a ≠ b := by simpa using hhead
  have hbne : b ≠ '\x7b' := hbf b (by simp)
  have e1 : (('\x7b' :: '\x7b' :: ((b :: κb) ++ ['\x7d', '\x7d'])) ++ t) =
      '\x7b' :: '\x7b' :: ((b :: κb) ++ ('\x7d' :: '\x7d' :: t)) := by simp
  rw [e1]
  rw [replaceAll_cons_of_not_pre repl _ '\x7b' _
    (by simp [isPre, hab])]
  rw [replaceAll_cons_of_not_pre repl _ '\x7b' _
    (by simp [isPre]; intro hcon; exact absurd hcon.symm hbne)]
  rw [replaceAll_skip_chunk repl _ (b :: κb) ('\x7d' :: '\x7d' :: t) hbf]
  rw [replaceAll_cons_of_not_pre repl _ '\x7d' _ (by simp [isPre])]
  rw [replaceAll_cons_of_not_pre repl _ '\x7d' _ (by simp [isPre])]
  simp

theorem keyStr_ne_nil (k : TKey) : keyStr k ≠ [] := by cases k <;> simp [keyStr]

theorem keyStr_braceFree (k : TKey) : ∀ c ∈ keyStr k, c ≠ '\x7b' := by
  cases k <;> decide

theorem keyStr_head_ne {k k2 : TKey} (h : k ≠ k2) :
    (keyStr k).head? ≠ (keyStr k2).head? := by
  cases k <;> cases k2 <;> first
    | exact absurd rfl h
    | decide

theorem tok_ne_nil (k : TKey) : tok k ≠ [] := by cases k <;> simp [tok]

theorem braceFree_no_open {s : Str} (h : braceFree s = true) : ∀ c ∈ s, c ≠ '\x7b' := by
  intro c hc
  have h2 := List.all_eq_true.1 h c hc
  rw [Bool.and_eq_true] at h2
  simpa using h2.1

theorem cleanBlocks_cons_lit {s : Str} {bs : List Block} :
    cleanBlocks (Block.litB s :: bs) = true ↔ braceFree s = true ∧ cleanBlocks bs = true := by
  simp [cleanBlocks]

theorem cleanBlocks_cons_tok {k : TKey} {bs : List Block} :
    cleanBlocks (Block.tokB k :: bs) = true ↔ cleanBlocks bs = true := by
  simp [cleanBlocks]

theorem replaceAll_render (k : TKey) (v : Str) :
    ∀ bs : List Block, cleanBlocks bs = true →
      replaceAll (renderB bs) (tok k) v = renderB (applyB k v bs)
  | [], _ => by
    rw [renderB, replaceAll_eq]
    rw [if_neg (by
      intro hcon
      rcases hcon with ⟨h1, _⟩
      rw [tok] at h1
      simp [isPre] at h1)]
    rfl
  | .litB s :: bs, h => by
    rcases cleanBlocks_cons_lit.1 h with ⟨hs, hbs⟩
    show replaceAll (s ++ renderB bs) (tok k) v = s ++ renderB (applyB k v bs)
    rw [tok]
    rw [replaceAll_skip_chunk v _ s (renderB bs) (braceFree_no_open hs)]
    rw [← tok]
    rw [replaceAll_render k v bs hbs]
  | .tokB k2 :: bs, h => by
    have hbs := cleanBlocks_cons_tok.1 h
    by_cases hk : k2 = k
    · subst hk
      have hstep : applyB k2 v (Block.tokB k2 :: bs) = Block.litB v :: applyB k2 v bs := by
        simp [applyB]
      rw [hstep]
      show replaceAll (tok k2 ++ renderB bs) (tok k2) v = v ++ renderB (applyB k2 v bs)
      rw [replaceAll_token_head _ _ _ (tok_ne_nil k2)]
      rw [replaceAll_render k2 v bs hbs]
    · have hstep : applyB k v (Block.tokB k2 :: bs) = Block.tokB k2 :: applyB k v bs := by
        simp [applyB, hk]
      rw [hstep]
      show replaceAll (tok k2 ++ renderB bs) (tok k) v = tok k2 ++ renderB (applyB k v bs)
      rw [tok, tok]
      rw [replaceAll_skip_token v (keyStr k) (keyStr k2) (renderB bs)
        (keyStr_ne_nil k) (keyStr_ne_nil k2) (keyStr_braceFree k2)
        (keyStr_head_ne (fun he => hk (by cases he; rfl)))]
      rw [← tok, ← tok]
      rw [replaceAll_render k v bs hbs]

theorem cleanBlocks_applyB (k : TKey) (v : Str) (hv : braceFree v = true)
    (bs : List Block) (h : cleanBlocks bs = true) : cleanBlocks (applyB k v bs) = true := by
  apply List.all_eq_true.2
  intro x hx
  rcases List.mem_map.1 hx with ⟨b, hb, rfl⟩
  have hball := List.all_eq_true.1 h b hb
  cases b with
  | litB s => exact hball
  | tokB k2 =>
    by_cases hk : k2 = k
    · simp [hk, hv]
    · simp [hk]

theorem applyB_comm (k1 k2 : TKey) (v1 v2 : Str) (h : k1 ≠ k2) :
    ∀ bs : List Block, applyB k1 v1 (applyB k2 v2 bs) = applyB k2 v2 (applyB k1 v1 bs)
  | [] => rfl
  | b :: bs => by
    have ih := applyB_comm k1 k2 v1 v2 h bs
    cases b with
    | litB s => simp [applyB] at ih ⊢; exact ih
    | tokB k3 =>
      simp only [applyB, List.map_cons] at ih ⊢
      by_cases h3 : k3 = k2
      · subst h3
        simp [Ne.symm h, ih]
      · by_cases h4 : k3 = k1
        · subst h4
          simp [h3, h, ih]
        · simp [h3, h4, ih]

theorem applyOrder_blocks :
    ∀ (l : List (TKey × Str)) (bs : List Block), cleanBlocks bs = true →
      (∀ p ∈ l, braceFree p.2 = true) →
      applyOrder l (renderB bs) = renderB (applyAllB l bs)
  | [], _, _, _ => rfl
  | p :: l, bs, hb, hl => by
    show applyOrder l (replaceAll (renderB bs) (tok p.1) p.2) =
      renderB (applyAllB l (applyB p.1 p.2 bs))
    rw [replaceAll_render p.1 p.2 bs hb]
    exact applyOrder_blocks l (applyB p.1 p.2 bs)
      (cleanBlocks_applyB p.1 p.2 (hl p (by simp)) bs hb)
      (fun q hq => hl q (by simp [hq]))

/-- C7 counterexample: replacement order can matter for an arbitrary token
map — on content consisting of the name token, with the name mapped to the
domain token and the domain mapped to D, the fixed code order produces D
while putting the domain replacement first leaves the domain token. -/
theorem c7_counterexample :
    applyOrder [(TKey.name, tok .domain), (TKey.domain, str "D"), (TKey.title, str "T")]
        (tok .name) ≠
      applyOrder [(TKey.domain, str "D"), (TKey.name, tok .domain), (TKey.title, str "T")]
        (tok .name) := by decide

/-- C7 (amended): provided the file content decomposes into placeholder
tokens and brace-free literal segments and the three replacement values
contain no curly braces (so no replacement creates a new token
occurrence), applying the three literal global replacements in any of the
six orders yields the same result as the code's fixed order. -/
theorem c7_order_independent_clean (bs : List Block) (v1 v2 v3 : Str)
    (hb : cleanBlocks bs = true) (h1 : braceFree v1 = true) (h2 : braceFree v2 = true)
    (h3 : braceFree v3 = true) :
    ∀ l ∈ [[(TKey.name, v1), (TKey.domain, v2), (TKey.title, v3)],
           [(TKey.name, v1), (TKey.title, v3), (TKey.domain, v2)],
           [(TKey.domain, v2), (TKey.name, v1), (TKey.title, v3)],
           [(TKey.domain, v2), (TKey.title, v3), (TKey.name, v1)],
           [(TKey.title, v3), (TKey.name, v1), (TKey.domain, v2)],
           [(TKey.title, v3), (TKey.domain, v2), (TKey.name, v1)]],
      applyOrder l (renderB bs) =
        replaceFileContent [(tok TKey.name, v1), (tok TKey.domain, v2), (tok TKey.title, v3)]
          (renderB bs) := by
  have hcanon := applyOrder_blocks [(TKey.name, v1), (TKey.domain, v2), (TKey.title, v3)] bs hb
    (by intro p hp; simp at hp; rcases hp with rfl | rfl | rfl <;> assumption)
  have hbridge : replaceFileContent
      [(tok TKey.name, v1), (tok TKey.domain, v2), (tok TKey.title, v3)] (renderB bs) =
      renderB (applyAllB [(TKey.name, v1), (TKey.domain, v2), (TKey.title, v3)] bs) := hcanon
  intro l hl
  simp only [List.mem_cons, List.not_mem_nil, or_false] at hl
  rw [hbridge]
  rcases hl with rfl | rfl | rfl | rfl | rfl | rfl
  · exact hcanon
  · rw [applyOrder_blocks _ bs hb
      (by intro p hp; simp at hp; rcases hp with rfl | rfl | rfl <;> assumption)]
    exact congrArg renderB
      (applyB_comm TKey.domain TKey.title v2 v3 (by decide) (applyB TKey.name v1 bs))
  · rw [applyOrder_blocks _ bs hb
      (by intro p hp; simp at hp; rcases hp with rfl | rfl | rfl <;> assumption)]
    exact congrArg renderB
      (congrArg (applyB TKey.title v3) (applyB_comm TKey.name TKey.domain v1 v2 (by decide) bs))
  · rw [applyOrder_blocks _ bs hb
      (by intro p hp; simp at hp; rcases hp with rfl | rfl | rfl <;> assumption)]
    show renderB (applyB TKey.name v1 (applyB TKey.title v3 (applyB TKey.domain v2 bs))) = _
    rw [applyB_comm TKey.name TKey.title v1 v3 (by decide) (applyB TKey.domain v2 bs)]
    rw [applyB_comm TKey.name TKey.domain v1 v2 (by decide) bs]
    rfl
  · rw [applyOrder_blocks _ bs hb
      (by intro p hp; simp at hp; rcases hp with rfl | rfl | rfl <;> assumption)]
    show renderB (applyB TKey.domain v2 (applyB TKey.name v1 (applyB TKey.title v3 bs))) = _
    rw [applyB_comm TKey.domain TKey.name v2 v1 (by decide) (applyB TKey.title v3 bs)]
    rw [applyB_comm TKey.domain TKey.title v2 v3 (by decide) bs]
    rw [applyB_comm TKey.name TKey.title v1 v3 (by decide) (applyB TKey.domain v2 bs)]
    rw [applyB_comm TKey.name TKey.domain v1 v2 (by decide) bs]
    rfl
  · rw [applyOrder_blocks _ bs hb
      (by intro p hp; simp at hp; rcases hp with rfl | rfl | rfl <;> assumption)]
    show renderB (applyB TKey.name v1 (applyB TKey.domain v2 (applyB TKey.title v3 bs))) = _
    rw [applyB_comm TKey.name TKey.domain v1 v2 (by decide) (applyB TKey.title v3 bs)]
    rw [applyB_comm TKey.name TKey.title v1 v3 (by decide) bs]
    rw [applyB_comm TKey.domain TKey.title v2 v3 (by decide) (applyB TKey.name v1 bs)]
    rfl

/-- C7 witness: order independence evaluated on concrete clean content
with a permuted order. -/
theorem c7_order_independent_clean_witness :
    applyOrder
        [(TKey.domain, str "x.example.com"), (TKey.name, str "myapp"), (TKey.title, str "T")]
        (renderB [Block.litB (str "Hello "), Block.tokB TKey.name, Block.litB (str " at "),
          Block.tokB TKey.domain]) =
      replaceFileContent
        [(tok TKey.name, str "myapp"), (tok TKey.domain, str "x.example.com"),
         (tok TKey.title, str "T")]
        (renderB [Block.litB (str "Hello "), Block.tokB TKey.name, Block.litB (str " at "),
          Block.tokB TKey.domain]) :=
  c7_order_independent_clean
    [Block.litB (str "Hello "), Block.tokB TKey.name, Block.litB (str " at "),
     Block.tokB TKey.domain]
    (str "myapp") (str "x.example.com") (str "T")
    (by decide) (by decide) (by decide) (by decide)
    [(TKey.domain, str "x.example.com"), (TKey.name, str "myapp"), (TKey.title, str "T")]
    (by decide)

end Stripeflare
